import Mathlib

/-!
Verification development for the cycleSpitter core
(src/cycle_spitter/{cycles,helpers,regexes,accumulator,template,block}.rs).

The Rust code is embedded shallowly:

* strings are `String`/`List Char`; every regular expression of the source is
  embedded as an executable leftmost-first scanner over `List Char`, one
  function per regex, with the same greedy/backtracking behaviour on the
  reachable inputs;
* `usize` values are `Nat`; the places where the source's unsigned arithmetic
  or indexing can fail are noted at the definition;
* the debug-build panic of `count_registers` (unsigned subtraction overflow on
  a descending register range) is modelled by `Except String`, which then
  propagates through every function that normalizes a line, exactly as a panic
  would propagate through the call chain;
* the cost database `db/cycles.json` is not part of the sources; following the
  spec it is a lookup-by-key parameter `Table` passed to every consumer.

Scanners that advance by more than one character use an explicit fuel that is
initialised with the length of the scanned list; since every step consumes at
least one character, this fuel is never exhausted, and it keeps all
definitions structurally recursive (hence computable by the kernel).
-/

/-! ## Character classes and elementary string helpers -/

/-- Whitespace, as matched by the regex class and by Rust trimming on the
inputs in question. -/
def isWsChar (c : Char) : Bool :=
  c = ' ' || c = '\t' || c = '\n' || c = '\r' || c = '\x0b' || c = '\x0c'

def isDigitChar (c : Char) : Bool := '0' ≤ c && c ≤ '9'

def isAlphaChar (c : Char) : Bool := ('a' ≤ c && c ≤ 'z') || ('A' ≤ c && c ≤ 'Z')

/-- Regex word character, the class behind word boundaries and ident tokens. -/
def isWordChar (c : Char) : Bool := isAlphaChar c || isDigitChar c || c = '_'

def isIdentStart (c : Char) : Bool := isAlphaChar c || c = '_'

/-- Digit usable as a register index, the regex class 0-7. -/
def isOctChar (c : Char) : Bool := '0' ≤ c && c ≤ '7'

def trimList (l : List Char) : List Char :=
  ((l.dropWhile isWsChar).reverse.dropWhile isWsChar).reverse

def rustTrim (s : String) : String := String.mk (trimList s.data)

def lowerStr (s : String) : String := String.mk (s.data.map Char.toLower)

def isPrefixCL : List Char → List Char → Bool
  | [], _ => true
  | _ :: _, [] => false
  | p :: ps, c :: cs => p == c && isPrefixCL ps cs

def containsSubAux (p : List Char) : List Char → Bool
  | [] => isPrefixCL p []
  | c :: cs => isPrefixCL p (c :: cs) || containsSubAux p cs

/-- Rust str::contains with a literal pattern. -/
def containsSub (pat s : String) : Bool := containsSubAux pat.data s.data

/-- Rust str::starts_with with a literal pattern. -/
def strStartsWith (s pre : String) : Bool := isPrefixCL pre.data s.data

def wordsAux : List Char → List Char → List String
  | acc, [] => if acc.isEmpty then [] else [String.mk acc.reverse]
  | acc, c :: cs =>
    if isWsChar c then
      if acc.isEmpty then wordsAux [] cs else String.mk acc.reverse :: wordsAux [] cs
    else wordsAux (c :: acc) cs

/-- Rust str::split_whitespace collected to a vector. -/
def splitWs (s : String) : List String := wordsAux [] s.data

def digitsVal (l : List Char) : Nat :=
  l.foldl (fun a c => a * 10 + (c.toNat - '0'.toNat)) 0

/-- Rust str::parse::<usize>: an optional plus sign, then at least one digit,
and the value must fit in 64 bits. -/
def parseUsize (s : String) : Option Nat :=
  let l := match s.data with
    | '+' :: r => r
    | r => r
  if !l.isEmpty && l.all isDigitChar then
    if digitsVal l < 2 ^ 64 then some (digitsVal l) else none
  else none

def splitNLAux : List Char → List Char → List String
  | acc, [] => [String.mk acc.reverse]
  | acc, c :: cs =>
    if c = '\n' then String.mk acc.reverse :: splitNLAux [] cs
    else splitNLAux (c :: acc) cs

def dropLastCR (s : String) : String :=
  match s.data.getLast? with
  | some '\r' => String.mk s.data.dropLast
  | _ => s

/-- Rust str::lines: split on newline, no final empty line, and a carriage
return preceding a newline is stripped. -/
def rustLines (s : String) : List String :=
  let parts := splitNLAux [] s.data
  let parts := if parts.getLast? = some "" then parts.dropLast else parts
  parts.map dropLastCR

/-! ## Generic replace-all scanners

A matcher looks at the current suffix and either fails or returns the
replacement text together with `extra`, the matched span minus one (every
match spans at least one character).  The scanner walks the text left to
right, emitting the replacement and resuming after the match, which is
exactly the leftmost, non-overlapping `Regex::replace_all` discipline. -/

def replaceScanGo (m : List Char → Option (List Char × Nat)) :
    Nat → List Char → List Char
  | 0, l => l
  | _, [] => []
  | fuel + 1, c :: rest =>
    match m (c :: rest) with
    | some (rep, extra) => rep ++ replaceScanGo m fuel (rest.drop extra)
    | none => c :: replaceScanGo m fuel rest

def replaceScan (m : List Char → Option (List Char × Nat)) (l : List Char) :
    List Char :=
  replaceScanGo m l.length l

/-- Variant tracking the previous character of the original text, used by the
matchers that test a word boundary on their left. -/
def replaceScanBGo (m : Option Char → List Char → Option (List Char × Nat)) :
    Nat → Option Char → List Char → List Char
  | 0, _, l => l
  | _, _, [] => []
  | fuel + 1, prev, c :: rest =>
    match m prev (c :: rest) with
    | some (rep, extra) =>
      rep ++ replaceScanBGo m fuel (((c :: rest).take (extra + 1)).getLast?) (rest.drop extra)
    | none => c :: replaceScanBGo m fuel (some c) rest

def replaceScanB (m : Option Char → List Char → Option (List Char × Nat))
    (l : List Char) : List Char :=
  replaceScanBGo m l.length none l

/-- Matcher for a fixed literal pattern, giving Rust String::replace. -/
def literalMatch (pat rep : List Char) (s : List Char) : Option (List Char × Nat) :=
  if isPrefixCL pat s then some (rep, pat.length - 1) else none

/-! ## The individual regexes of cycles.rs and regexes.rs -/

/-- REG_DISPLACEMENT, a nonempty run of characters other than whitespace,
comma and parentheses, followed by a parenthesised address register; the
replacement keeps a lone minus displacement and renames any other
displacement text to d. -/
def dispOperandChar (c : Char) : Bool :=
  !(isWsChar c) && c ≠ ',' && c ≠ '(' && c ≠ ')'

def dispMatch (s : List Char) : Option (List Char × Nat) :=
  let run := s.takeWhile dispOperandChar
  if run.isEmpty then none
  else
    match s.drop run.length with
    | '(' :: 'a' :: d :: ')' :: _ =>
      if isOctChar d then
        some ((if run = ['-'] then ['-'] else ['d']) ++ ['(', 'a', d, ')'], run.length + 3)
      else none
    | '(' :: 's' :: 'p' :: ')' :: _ =>
      some ((if run = ['-'] then ['-'] else ['d']) ++ "(sp)".data, run.length + 3)
    | _ => none

/-- REG_IMMEDIATE, a hash followed by a nonempty run of characters other than
comma and whitespace. -/
def immChar (c : Char) : Bool := c ≠ ',' && !(isWsChar c)

def immMatch : List Char → Option (List Char × Nat)
  | '#' :: rest =>
    let run := rest.takeWhile immChar
    if run.isEmpty then none else some ("#xxx".data, run.length)
  | _ => none

def boundaryL (prev : Option Char) : Bool :=
  match prev with
  | none => true
  | some c => !(isWordChar c)

def boundaryR : List Char → Bool
  | [] => true
  | c :: _ => !(isWordChar c)

/-- REG_DATA, a data register d0-d7 between word boundaries. -/
def dataMatch (prev : Option Char) : List Char → Option (List Char × Nat)
  | 'd' :: d :: rest =>
    if isOctChar d && boundaryL prev && boundaryR rest then some ("dn".data, 1) else none
  | _ => none

/-- REG_ADDR, an address register a0-a7 or sp between word boundaries. -/
def addrMatch (prev : Option Char) : List Char → Option (List Char × Nat)
  | 'a' :: d :: rest =>
    if isOctChar d && boundaryL prev && boundaryR rest then some ("an".data, 1) else none
  | 's' :: 'p' :: rest =>
    if boundaryL prev && boundaryR rest then some ("an".data, 1) else none
  | _ => none

/-- REG_ABS_ADDRESS token handling: identifiers already renamed to an, dn or
the displacement d are kept verbatim, anything else becomes an absolute
address placeholder whose suffix follows the optional explicit suffix. -/
def absKeepToken (tok : List Char) : Bool :=
  tok == "an".data || tok == "dn".data || tok == "d".data

def buildAbsRep (eaten tok : List Char) (suf : Option Char) : List Char :=
  if absKeepToken tok then
    eaten ++ tok ++ (match suf with | some s => ['.', s] | none => [])
  else
    eaten ++ (if suf == some 'w' then "xxx.w".data else "xxx.l".data)

def absTokenMatch (eaten t : List Char) : Option (List Char × Nat) :=
  match t with
  | c :: rest =>
    if isIdentStart c then
      let tok := c :: rest.takeWhile isWordChar
      let after := rest.drop (tok.length - 1)
      match after with
      | '.' :: s :: rest2 =>
        if (s = 'l' || s = 'w') && boundaryR rest2 then
          some (buildAbsRep eaten tok (some s), eaten.length + tok.length + 1)
        else
          some (buildAbsRep eaten tok none, eaten.length + tok.length - 1)
      | _ => some (buildAbsRep eaten tok none, eaten.length + tok.length - 1)
    else none
  | [] => none

/-- REG_ABS_ADDRESS: the before group is the start of the text or one of
space, tab, comma, opening parenthesis, opening bracket; then an identifier
token, an optional .l or .w suffix, and a word boundary.  When the suffix is
present but not followed by a boundary the engine backtracks to the
suffix-less match, which always has its boundary. -/
def isBeforeClass (c : Char) : Bool :=
  c = ' ' || c = '\t' || c = ',' || c = '(' || c = '['

def absMatch (atStart : Bool) (s : List Char) : Option (List Char × Nat) :=
  match (if atStart then absTokenMatch [] s else none) with
  | some r => some r
  | none =>
    match s with
    | b :: rest => if isBeforeClass b then absTokenMatch [b] rest else none
    | [] => none

def absScanGo : Nat → Bool → List Char → List Char
  | 0, _, l => l
  | _, _, [] => []
  | fuel + 1, atStart, c :: rest =>
    match absMatch atStart (c :: rest) with
    | some (rep, extra) => rep ++ absScanGo fuel false (rest.drop extra)
    | none => c :: absScanGo fuel false rest

/-- REG_SPACES, a run of spaces and tabs collapsed to a single space. -/
def spaceMatch : List Char → Option (List Char × Nat)
  | c :: rest =>
    if c = ' ' || c = '\t' then
      some ([' '], (rest.takeWhile (fun x => x = ' ' || x = '\t')).length)
    else none
  | [] => none

/-- REG_DOLLAR_CHECK, a dollar sign, a nonempty run of word characters, an
optional .w suffix and an optional punctuation character that is kept. -/
def dollarMatch : List Char → Option (List Char × Nat)
  | '$' :: rest =>
    let w := rest.takeWhile isWordChar
    if w.isEmpty then none
    else
      let after := rest.drop w.length
      let step := match after with
        | '.' :: 'w' :: r => (true, r, w.length + 2)
        | _ => (false, after, w.length)
      match step with
      | (hasW, after2, len2) =>
        match after2 with
        | p :: _ =>
          if p = ',' || p = ';' || p = '\n' || p = '\t' then
            some ((if hasW then "xxx.w".data else "xxx.l".data) ++ [p], len2 + 1)
          else some ((if hasW then "xxx.w".data else "xxx.l".data), len2)
        | [] => some ((if hasW then "xxx.w".data else "xxx.l".data), len2)
  | _ => none

/-! ## Register lists and count_registers (cycles.rs) -/

def splitOnCharAux (sep : Char) : List Char → List Char → List (List Char)
  | acc, [] => [acc.reverse]
  | acc, c :: cs =>
    if c = sep then acc.reverse :: splitOnCharAux sep [] cs
    else splitOnCharAux sep (c :: acc) cs

def splitOnChar (sep : Char) (l : List Char) : List (List Char) :=
  splitOnCharAux sep [] l

/-- Numeric value of the last character of a range endpoint.  The source
unwraps chars().last() and to_digit(10); on the register lists handed over by
REG_REGLIST the last character is always a digit, so the defaults of this
total version are never taken. -/
def lastDigitVal (part : List Char) : Nat :=
  ((part.getLast?).getD '0').toNat - '0'.toNat

/-- One slash-separated part of a register list.  A two-endpoint range counts
its inclusive digit distance; the source computes end - start + 1 in unsigned
arithmetic, so a descending range overflows, which is a panic in a debug
build (and a wrapped-around huge count in release); the overflow is modelled
as an error.  A part that is not a two-endpoint range counts as one. -/
def countRegPart (part : List Char) : Except String Nat :=
  if part.contains '-' then
    let rangeParts := splitOnChar '-' part
    if rangeParts.length = 2 then
      let s := lastDigitVal (rangeParts.getD 0 [])
      let e := lastDigitVal (rangeParts.getD 1 [])
      if e < s then .error "attempt to subtract with overflow in count_registers"
      else .ok (e - s + 1)
    else .ok 1
  else .ok 1

/-- count_registers of cycles.rs: split the list on slashes and sum the part
counts. -/
def count_registers (reg_list : String) : Except String Nat :=
  (splitOnChar '/' reg_list.data).foldlM (fun acc part => do
    let n ← countRegPart part
    pure (acc + n)) 0

def isRegPair : List Char → Bool
  | c :: d :: _ => (c = 'd' || c = 'a') && isOctChar d
  | _ => false

def chainSegs : Nat → List Char → Nat
  | 0, _ => 0
  | fuel + 1, sep :: c :: d :: rest =>
    if (sep = '-' || sep = '/') && (c = 'd' || c = 'a') && isOctChar d then
      1 + chainSegs fuel rest
    else 0
  | _, _ => 0

/-- REG_REGLIST: a register, optionally a dash range, then at least one more
dash- or slash-joined register (with optional range); greedily this is the
maximal chain of sep-joined registers starting here, matching only when it
names at least two registers.  Returns the span minus one. -/
def reglistSpan (l : List Char) : Option Nat :=
  if isRegPair l then
    let k := chainSegs (l.drop 2).length (l.drop 2)
    if k = 0 then none else some (1 + 3 * k)
  else none

def regPlaceholder : List Char := "%%REGLIST%%".data

/-- The replace_all over REG_REGLIST whose closure accumulates the register
count; a panic inside count_registers aborts the whole rewrite. -/
def reglistScanGo : Nat → List Char → Except String (List Char × Nat)
  | 0, l => .ok (l, 0)
  | _, [] => .ok ([], 0)
  | fuel + 1, c :: rest =>
    match reglistSpan (c :: rest) with
    | some extra => do
      let n ← count_registers (String.mk ((c :: rest).take (extra + 1)))
      let (out, cnt) ← reglistScanGo fuel (rest.drop extra)
      pure (regPlaceholder ++ out, n + cnt)
    | none => do
      let (out, cnt) ← reglistScanGo fuel rest
      pure ((c :: out : List Char), cnt)

/-! ## Label stripping, mnemonic handling, normalize_line_ext (cycles.rs) -/

/-- Match length of the unanchored alternative of REG_LABEL_CHECK at this
position: any dots, an identifier, a colon, then trailing whitespace. -/
def labelAltLen (l : List Char) : Option Nat :=
  let dots := (l.takeWhile (fun c => c = '.')).length
  match l.drop dots with
  | c :: rest =>
    if isIdentStart c then
      let identLen := 1 + (rest.takeWhile isWordChar).length
      match l.drop (dots + identLen) with
      | ':' :: rest2 => some (dots + identLen + 1 + (rest2.takeWhile isWsChar).length)
      | _ => none
    else none
  | [] => none

def labelScanGo : Nat → List Char → List Char
  | 0, l => l
  | _, [] => []
  | fuel + 1, c :: rest =>
    match labelAltLen (c :: rest) with
    | some n => (c :: rest).drop n
    | none => c :: labelScanGo fuel rest

/-- Regex::replace (first match only) of REG_LABEL_CHECK: the anchored
alternative eats one leading whitespace character, otherwise the leftmost
label-shaped token is removed. -/
def labelStrip (l : List Char) : List Char :=
  match l with
  | c :: rest => if isWsChar c then rest else labelScanGo l.length (c :: rest)
  | [] => []

/-- REG_BCC on the mnemonic token: a b followed by two letters, and whether a
literal .s follows. -/
def bccSplit (t : List Char) : Option (List Char × Bool) :=
  match t with
  | 'b' :: c1 :: c2 :: rest =>
    if isAlphaChar c1 && isAlphaChar c2 then
      some (['b', c1, c2], isPrefixCL ".s".data rest)
    else none
  | _ => none

/-- Mnemonic normalization of normalize_line_ext.  The source also appends
caps.get(3) after the branch suffix; REG_BCC has no third capture group, so
that is always the empty string. -/
def normMnemonic (t : List Char) : List Char :=
  if t == "lea".data || t == "moveq".data then t ++ ".l".data
  else
    match bccSplit t with
    | some (pre, hasS) => pre ++ (if hasS then ".b".data else ".w".data)
    | none => if t.contains '.' then t else t ++ ".w".data

/-- splitn(2, whitespace): token before the first whitespace character and
everything after that character. -/
def splitFirstWs (l : List Char) : List Char × List Char :=
  let tok := l.takeWhile (fun c => !(isWsChar c))
  match l.drop tok.length with
  | _ :: rest => (tok, rest)
  | [] => (tok, [])

def stripComment (l : List Char) : List Char := l.takeWhile (fun c => c ≠ ';')

/-- normalize_line_ext of cycles.rs: strip the comment and a leading label,
trim and lower-case, normalize the mnemonic, then rewrite the operands by the
regex passes in source order (displacement, immediate, register list, data
register, address register, absolute address, space collapse, dollar tokens,
register-list placeholder restore). -/
def normalize_line_ext (line : String) : Except String (String × Nat) := do
  let noComment := stripComment line.data
  let noLabel := labelStrip noComment
  let trimmed := (trimList noLabel).map Char.toLower
  let (tok0, operandPart) := splitFirstWs trimmed
  let tok := normMnemonic tok0
  let ops := replaceScan dispMatch operandPart
  let ops := replaceScan immMatch ops
  let (ops, reg_count) ← reglistScanGo ops.length ops
  let ops := replaceScanB dataMatch ops
  let ops := replaceScanB addrMatch ops
  let ops := absScanGo ops.length true ops
  let ops := trimList (replaceScan spaceMatch ops)
  let ops := if ops.contains '$' then replaceScan dollarMatch ops else ops
  let ops := replaceScan (literalMatch "%%REGLIST%%".data "reglist".data) ops
  pure (String.mk (if ops.isEmpty then tok else tok ++ ' ' :: ops), reg_count)

/-! ## Cost resolution (cycles.rs and helpers.rs) -/

structure CycleCount where
  cycles : List Nat
  lookup : String
  reg_count : Nat
deriving DecidableEq

/-- The cost database of the program, db/cycles.json, is a bundled data
resource that is not among the sources; the spec only requires a
lookup-by-key mapping from canonical key to a list of cycle costs, so the
table is a parameter. -/
def Table : Type := String → Option (List Nat)

/-- lookup_cycles of cycles.rs: normalize, then look the key up; a missing
key yields a single zero cost (the source also prints a warning to stderr in
that case). -/
def lookup_cycles (tbl : Table) (line : String) : Except String CycleCount := do
  let (normalized, reg_count) ← normalize_line_ext line
  match tbl normalized with
  | some cycles => pure ⟨cycles, normalized, reg_count⟩
  | none => pure ⟨[0], normalized, reg_count⟩

/-- The parenthesised-number part of REG_NUMBER_RE and PAREN_NUM_RE: an
opening parenthesis, optional whitespace, at least one digit, optional
whitespace, a closing parenthesis; returns the digit characters. -/
def parenDigits : List Char → Option (List Char)
  | '(' :: rest =>
    let rest1 := rest.dropWhile isWsChar
    let ds := rest1.takeWhile isDigitChar
    if ds.isEmpty then none
    else
      match (rest1.drop ds.length).dropWhile isWsChar with
      | ')' :: _ => some ds
      | _ => none
  | _ => none

def regNumScanGo : Nat → Bool → List Char → Option (List Char)
  | 0, _, _ => none
  | _, _, [] => none
  | fuel + 1, atStart, c :: rest =>
    match (if atStart then parenDigits (c :: rest) else none) with
    | some ds => some ds
    | none =>
      if isWsChar c then
        match parenDigits rest with
        | some ds => some ds
        | none => regNumScanGo fuel false rest
      else regNumScanGo fuel false rest

/-- REG_NUMBER_RE of regexes.rs: a parenthesised number preceded by the start
of the line or a whitespace character; the captured digits are parsed with
unwrap_or(0), so a value not fitting in 64 bits becomes 0. -/
def regNumberCapture (line : String) : Option Nat :=
  (regNumScanGo line.data.length true line.data).map
    (fun ds => if digitsVal ds < 2 ^ 64 then digitsVal ds else 0)

def parenNumScanGo : Nat → List Char → Bool
  | 0, _ => false
  | _, [] => false
  | fuel + 1, c :: rest => (parenDigits (c :: rest)).isSome || parenNumScanGo fuel rest

/-- PAREN_NUM_RE of template.rs: is_match of a parenthesised number anywhere
in the line, with no constraint on the preceding character. -/
def parenNumIsMatch (l : String) : Bool := parenNumScanGo l.data.length l.data

/-- extract_cycle_count of helpers.rs: the inline parenthesised override is
tested first; only lines without one consult the skip predicate and then the
table.  The override branch of the source constructs CycleCount without a
reg_count field (the struct literal predates that field); its value is
irrelevant to every consumer of an override cost, and 0 is the only value
consistent with the field's meaning there. -/
def extract_cycle_count (tbl : Table) (line : String) (should_skip : String → Bool) :
    Except String (Option CycleCount) :=
  match regNumberCapture line with
  | some n => .ok (some ⟨[n], "n/a", 0⟩)
  | none =>
    if should_skip line then .ok none
    else (lookup_cycles tbl line).map some

/-- The skip predicate accumulate_chunk passes to extract_cycle_count. -/
def accSkip (l : String) : Bool :=
  strStartsWith (rustTrim l) ";" || containsSub " equ " l

/-- The skip predicate parse_template passes to extract_cycle_count. -/
def templateSkip (l : String) : Bool :=
  strStartsWith (rustTrim l) ";" || containsSub "dcb.w" l ||
    containsSub " equ " l || parenNumIsMatch l

/-- Cycle column of the annotation helpers: a branch pair prints as
not-taken/taken, a single cost as itself.  The source indexes cycles[0] (and
cycles[1] when the length exceeds one) without a check; a cost table entry is
a non-empty list per the spec, so the 0 defaults here are never taken. -/
def cyclesDisplay (cycles : List Nat) : String :=
  if cycles.length > 1 then
    Nat.repr (cycles.getD 0 0) ++ "/" ++ Nat.repr (cycles.getD 1 0)
  else Nat.repr (cycles.getD 0 0)

/-- format_accumulated_instruction of helpers.rs (template.rs passes an extra
reg_count argument that this helper does not declare; the four declared
parameters are embedded). -/
def format_accumulated_instruction (line lookup : String) (cycles : List Nat)
    (offset : Nat) : String :=
  line ++ "\t;\t(" ++ cyclesDisplay cycles ++ ")\t" ++ lookup ++ "\t[" ++
    Nat.repr offset ++ "]"

/-! ## Budget accumulator (accumulator.rs) -/

def nopLine (offset : Nat) : String :=
  "nop\t; 4 cycles\t[" ++ Nat.repr offset ++ "]"

/-- The padding for-loop of accumulate_chunk: n filler nop lines, each worth
4 cycles and annotated with the running offset, and the advanced offset. -/
def nopPad (offset : Nat) : Nat → List String × Nat
  | 0 => ([], offset)
  | n + 1 =>
    let (rest, final) := nopPad (offset + 4) n
    (nopLine offset :: rest, final)

def nopLines (offset n : Nat) : List String :=
  (List.range n).map (fun k => nopLine (offset + 4 * k))

/-- The while loop of accumulate_chunk, as structural recursion on the fuel
lines.length - i (the loop advances i by one in every iteration that does not
return, so this fuel is exact).  State: current index i and running cycle
counter sum (local_sum of the source, which starts at the initial offset). -/
def accGo (tbl : Table) (lines : List String) (target init : Nat) :
    Nat → Nat → Nat → Except String (List String × Nat × Nat)
  | 0, i, sum => .ok ([], i, sum)
  | fuel + 1, i, sum =>
    if i < lines.length ∧ sum - init < target then
      let line := lines.getD i ""
      if rustTrim line == "" || strStartsWith (rustTrim line) ";" then
        (accGo tbl lines target init fuel (i + 1) sum).map (fun r => (line :: r.1, r.2))
      else if containsSub " set " line then
        (accGo tbl lines target init fuel (i + 1) sum).map (fun r => (line :: r.1, r.2))
      else
        match extract_cycle_count tbl line accSkip with
        | .error e => .error e
        | .ok none => accGo tbl lines target init fuel (i + 1) sum
        | .ok (some cc) =>
          let base := cc.cycles.getD 0 0
          if sum - init + base > target then
            match nopPad sum ((target - (sum - init)) / 4) with
            | (pad, sum2) => .ok (pad, i, sum2)
          else
            (accGo tbl lines target init fuel (i + 1) (sum + base)).map
              (fun r =>
                (format_accumulated_instruction line cc.lookup cc.cycles sum :: r.1, r.2))
    else .ok ([], i, sum)

def accLoop (tbl : Table) (lines : List String) (target init i sum : Nat) :
    Except String (List String × Nat × Nat) :=
  accGo tbl lines target init (lines.length - i) i sum

/-- accumulate_chunk of accumulator.rs: run the loop, then pad any shortfall
with filler nops.  The final mismatch check of the source only prints a
warning (accumulate_warns below) and the chunk is returned regardless. -/
def accumulate_chunk (tbl : Table) (lines : List String)
    (start_index target initial_offset : Nat) :
    Except String (List String × Nat × Nat) :=
  (accLoop tbl lines target initial_offset start_index initial_offset).map (fun r =>
    match r with
    | (chunk, i, sum) =>
      if sum - initial_offset < target then
        match nopPad sum ((target - (sum - initial_offset)) / 4) with
        | (pad, sum2) => (chunk ++ pad, i, sum2)
      else (chunk, i, sum))

/-- The condition of the final eprintln warning of accumulate_chunk. -/
def accumulate_warns (tbl : Table) (lines : List String)
    (start_index target initial_offset : Nat) : Bool :=
  match accumulate_chunk tbl lines start_index target initial_offset with
  | .ok (_, _, sum) => sum - initial_offset != target
  | .error _ => false

/-! ## Template model (template.rs) -/

structure TemplateSection where
  injection_code : List (String × Nat)
  nop_cycles : Nat
  label : String
deriving DecidableEq

/-- COMMENT_RE capture group 1: everything after the first semicolon and the
whitespace following it. -/
def commentCapture (s : String) : Option String :=
  match s.data.dropWhile (fun c => c ≠ ';') with
  | ';' :: rest => some (String.mk (rest.dropWhile isWsChar))
  | _ => none

def nopMatchAt (l : List Char) : Option (List Char) :=
  if isPrefixCL "dcb.w".data l then
    let r1 := (l.drop 5).dropWhile isWsChar
    let ds := r1.takeWhile isDigitChar
    if ds.isEmpty then none
    else
      match r1.drop ds.length with
      | ',' :: r2 =>
        if isPrefixCL "$4e71".data (r2.dropWhile isWsChar) then some ds else none
      | _ => none
  else none

def nopScanGo : Nat → List Char → Option (List Char)
  | 0, _ => none
  | _, [] => none
  | fuel + 1, c :: rest =>
    match nopMatchAt (c :: rest) with
    | some ds => some ds
    | none => nopScanGo fuel rest

/-- NOP_RE of template.rs: dcb.w, optional whitespace, a count, a comma,
optional whitespace, the nop word 4e71; returns the captured count digits. -/
def nopCapture (s : String) : Option (List Char) := nopScanGo s.data.length s.data

/-- The per-line loop of parse_template.  State: finished sections, the
injection code, label and running cycle offset of the section being built.
The count of a filler directive is parsed with the question-mark operator,
so a count not fitting in 64 bits aborts with a ParseIntError. -/
def templateLoop (tbl : Table) :
    List String → List TemplateSection → List (String × Nat) → String → Nat →
    Except String (List TemplateSection × List (String × Nat) × String × Nat)
  | [], secs, code, label, off => .ok (secs, code, label, off)
  | line :: rest, secs, code, label, off =>
    let t := rustTrim line
    if t == "" then templateLoop tbl rest secs code label off
    else if containsSub " set " t then
      let label2 := if label == "" then
          (commentCapture t).getD ("Section " ++ Nat.repr (secs.length + 1))
        else label
      templateLoop tbl rest secs (code ++ [(t, 0)]) label2 off
    else
      match nopCapture t with
      | some ds =>
        if digitsVal ds < 2 ^ 64 then
          if !code.isEmpty then
            templateLoop tbl rest (secs ++ [⟨code, digitsVal ds * 4, label⟩]) [] "" off
          else templateLoop tbl rest secs code label off
        else .error "ParseIntError: number too large to fit in target type"
      | none =>
        match extract_cycle_count tbl t templateSkip with
        | .error e => .error e
        | .ok none => templateLoop tbl rest secs code label off
        | .ok (some cc) =>
          let label2 := if label == "" then
              (commentCapture t).getD ("Section " ++ Nat.repr (secs.length + 1))
            else label
          let caclucated := if cc.reg_count > 1 then
              cc.cycles.getD 0 0 + cc.cycles.getD 1 0 * cc.reg_count
            else cc.cycles.getD 0 0
          templateLoop tbl rest secs
            (code ++ [(format_accumulated_instruction t cc.lookup cc.cycles off, caclucated)])
            label2 (off + caclucated)

/-- parse_template of template.rs: iterate the template lines, then flush a
still-open section with filler budget 0. -/
def parse_template (tbl : Table) (template_content : String) :
    Except String (List TemplateSection) :=
  (templateLoop tbl (rustLines template_content) [] [] "" 0).map (fun st =>
    match st with
    | (secs, code, label, _) =>
      if !code.isEmpty then secs ++ [⟨code, 0, label⟩] else secs)

/-! ## Repeat-block expansion (block.rs) -/

/-- The body of process_block on the suffix of the lines after the current
index, as structural recursion on the fuel (one unit per processed line; the
suffix handed to a continuation is never longer than the rest, so a fuel of
the suffix length is exact).  Returns the produced lines and the number of
input lines consumed, so that an endr returns control just past itself. -/
def pbGo : Nat → List String → List String × Nat
  | 0, _ => ([], 0)
  | _ + 1, [] => ([], 0)
  | fuel + 1, line :: rest =>
    let low := lowerStr line
    if strStartsWith low "rept" then
      match splitWs low with
      | _ :: cnt :: _ =>
        match parseUsize cnt with
        | some n =>
          match pbGo fuel rest with
          | (block, used) =>
            match pbGo fuel (rest.drop used) with
            | (out2, used2) =>
              ((List.replicate n block).flatten ++ out2, 1 + used + used2)
        | none =>
          match pbGo fuel rest with
          | (out, used) => (line :: out, 1 + used)
      | _ =>
        match pbGo fuel rest with
        | (out, used) => (out, 1 + used)
    else if strStartsWith low "endr" then ([], 1)
    else
      match pbGo fuel rest with
      | (out, used) => (line :: out, 1 + used)

/-- process_block of block.rs, with the returned stop position expressed as
start_index plus the number of consumed lines of the suffix. -/
def process_block (lines : List String) (start_index : Nat) : List String × Nat :=
  match pbGo (lines.drop start_index).length (lines.drop start_index) with
  | (out, used) => (out, start_index + used)

/-! ## Tables used by the concrete evaluations -/

def emptyTable : Table := fun _ => none

/-- Modelled from the spec: the bundled cost database db/cycles.json is
missing from the sources.  Spec section 6 requires a mapping from canonical
key to a non-empty list of cycle costs, and section 3 specifies that an entry
whose key denotes a register-list operand carries the pair (base cost,
per-register cost); this sample table holds one such two-component entry for
the register-list movem key. -/
def sampleTable : Table :=
  fun k => if k = "movem.l reglist,-(an)" then some [8, 8] else none

deriving instance DecidableEq for Except

/-! ## Supporting lemmas -/

/-- One unfolding of the filler-line list. -/
theorem nopLines_succ (offset k : Nat) :
    nopLines offset (k + 1) = nopLine offset :: nopLines (offset + 4) k := by
  simp only [nopLines, List.range_succ_eq_map, List.map_cons, List.map_map]
  congr 1
  apply List.map_congr_left
  intro a _
  simp only [Function.comp_apply]
  congr 1
  omega

/-- The padding for-loop produces the filler lines at offsets
offset, offset+4, ... and advances the offset by 4 per line. -/
theorem nopPad_eq (offset n : Nat) :
    nopPad offset n = (nopLines offset n, offset + 4 * n) := by
  induction n generalizing offset with
  | zero => simp [nopPad, nopLines]
  | succ k ih =>
    rw [nopLines_succ]
    simp only [nopPad, ih]
    congr 1
    omega

/-- Unfolding equation of the accumulator loop: the wrapper accLoop runs accGo
with the exact fuel lines.length - i, so one loop iteration is one unfolding. -/
theorem accLoop_step (tbl : Table) (lines : List String) (target init i sum : Nat) :
    accLoop tbl lines target init i sum =
      if i < lines.length ∧ sum - init < target then
        let line := lines.getD i ""
        if rustTrim line == "" || strStartsWith (rustTrim line) ";" then
          (accLoop tbl lines target init (i + 1) sum).map (fun r => (line :: r.1, r.2))
        else if containsSub " set " line then
          (accLoop tbl lines target init (i + 1) sum).map (fun r => (line :: r.1, r.2))
        else
          match extract_cycle_count tbl line accSkip with
          | .error e => .error e
          | .ok none => accLoop tbl lines target init (i + 1) sum
          | .ok (some cc) =>
            let base := cc.cycles.getD 0 0
            if sum - init + base > target then
              match nopPad sum ((target - (sum - init)) / 4) with
              | (pad, sum2) => .ok (pad, i, sum2)
            else
              (accLoop tbl lines target init (i + 1) (sum + base)).map
                (fun r =>
                  (format_accumulated_instruction line cc.lookup cc.cycles sum :: r.1, r.2))
      else .ok ([], i, sum) := by
  by_cases h : i < lines.length
  · have hfuel : lines.length - i = (lines.length - (i + 1)) + 1 := by omega
    simp only [accLoop, hfuel]
    rfl
  · have hfuel : lines.length - i = 0 := by omega
    simp only [accLoop, hfuel]
    rw [if_neg (fun hc => h hc.1)]
    rfl

/-- pbGo ignores an empty suffix for any fuel. -/
theorem pbGo_nil (fuel : Nat) : pbGo fuel [] = ([], 0) := by
  cases fuel <;> rfl

/-- On lines that open no repeat block and close none, the expander copies the
input and consumes all of it. -/
theorem pbGo_clean (body : List String)
    (h : ∀ l ∈ body, strStartsWith (lowerStr l) "rept" = false ∧
      strStartsWith (lowerStr l) "endr" = false) :
    pbGo body.length body = (body, body.length) := by
  induction body with
  | nil => rfl
  | cons l rest ih =>
    have hl := h l (List.mem_cons_self l rest)
    have hrest := fun x hx => h x (List.mem_cons_of_mem l hx)
    simp [pbGo, hl.1, hl.2, ih hrest, Nat.add_comm]

/-- templateLoop only ever appends to the finished-section list. -/
theorem templateLoop_append (tbl : Table) (lines : List String) :
    ∀ secs code label off res,
      templateLoop tbl lines secs code label off = .ok res →
      ∃ tail, res.1 = secs ++ tail := by
  induction lines with
  | nil =>
    intro secs code label off res h
    simp only [templateLoop] at h
    cases h
    exact ⟨[], by simp⟩
  | cons line rest ih =>
    intro secs code label off res h
    simp only [templateLoop] at h
    repeat' split at h
    all_goals
      first
      | exact ih _ _ _ _ _ h
      | simp at h
      | (obtain ⟨tail, ht⟩ := ih _ _ _ _ _ h
         exact ⟨_, ht.trans (List.append_assoc _ _ _)⟩)

/-- A non-default section label, the text after Section, is never empty. -/
theorem section_label_ne_empty (n : Nat) : ("Section " ++ Nat.repr n) ≠ "" := by
  intro h
  have h2 := congrArg String.length h
  rw [String.length_append] at h2
  have h8 : ("Section " : String).length = 8 := rfl
  have h0 : ("" : String).length = 0 := rfl
  rw [h8, h0] at h2
  omega

/-- Once the label of the section being built is a non-empty string, the first
section subsequently flushed carries that label, and if none is flushed the
pending label is still that string: later inline comments never override it. -/
theorem templateLoop_label_persist (tbl : Table) (lines : List String) :
    ∀ secs code label off secs2 code2 label2 off2,
      label ≠ "" →
      templateLoop tbl lines secs code label off = .ok (secs2, code2, label2, off2) →
      (∀ s, (secs2.drop secs.length).head? = some s → s.label = label) ∧
      (secs2.drop secs.length = [] → label2 = label) := by
  induction lines with
  | nil =>
    intro secs code label off secs2 code2 label2 off2 hlabel h
    simp only [templateLoop, Except.ok.injEq, Prod.mk.injEq] at h
    obtain ⟨h1, _, h3, _⟩ := h
    subst h1
    subst h3
    refine ⟨?_, fun _ => rfl⟩
    intro s hs
    rw [List.drop_length] at hs
    simp at hs
  | cons line rest ih =>
    intro secs code label off secs2 code2 label2 off2 hlabel h
    have hbeq : (label == "") = false := beq_eq_false_iff_ne.mpr hlabel
    simp only [templateLoop, hbeq, Bool.false_eq_true, if_false] at h
    repeat' split at h
    all_goals
      first
      | exact ih _ _ _ _ _ _ _ _ hlabel h
      | simp at h
      | (obtain ⟨tail, ht⟩ := templateLoop_append tbl rest _ _ _ _ _ h
         simp only at ht
         constructor
         · intro s hs
           rw [ht, List.append_assoc, List.drop_left] at hs
           simp at hs
           subst hs
           rfl
         · intro hnil
           rw [ht, List.append_assoc, List.drop_left] at hnil
           simp at hnil)

/-- Sections are only flushed with the (non-empty) injection code built so
far, so every section in the accumulated list has non-empty injection code. -/
theorem templateLoop_nonempty (tbl : Table) (lines : List String) :
    ∀ secs code label off secs2 code2 label2 off2,
      (∀ s ∈ secs, s.injection_code ≠ []) →
      templateLoop tbl lines secs code label off = .ok (secs2, code2, label2, off2) →
      ∀ s ∈ secs2, s.injection_code ≠ [] := by
  induction lines with
  | nil =>
    intro secs code label off secs2 code2 label2 off2 hsecs h
    simp only [templateLoop, Except.ok.injEq, Prod.mk.injEq] at h
    obtain ⟨h1, _, _, _⟩ := h
    subst h1
    exact hsecs
  | cons line rest ih =>
    intro secs code label off secs2 code2 label2 off2 hsecs h
    simp only [templateLoop] at h
    repeat' split at h
    all_goals
      first
      | exact ih _ _ _ _ _ _ _ _ hsecs h
      | simp at h
      | (refine ih _ _ _ _ _ _ _ _ ?_ h
         intro s hs
         rcases List.mem_append.mp hs with hs2 | hs2
         · exact hsecs s hs2
         · rw [List.mem_singleton] at hs2
           subst hs2
           rename_i _ hcode
           simp only [ne_eq]
           intro hc
           rw [hc] at hcode
           simp at hcode)

/-! ## Claim C1 -/

/-- C1 (counterexample): the instruction movem.l d0-d1,-(sp) resolves to the
two-component entry [8, 8] under the register-list key movem.l reglist,-(an)
with register count 2 > 1, yet accumulate_chunk consumes it against a target
of 8 and advances the offset by components[0] = 8 only; the claimed effective
cost components[0] + components[1] * register_count = 24 differs (it would
exceed the target and forbid consumption). -/
theorem c1_counterexample :
    lookup_cycles sampleTable "movem.l d0-d1,-(sp)" =
      .ok ⟨[8, 8], "movem.l reglist,-(an)", 2⟩ ∧
    containsSub "reglist" "movem.l reglist,-(an)" = true ∧
    accumulate_chunk sampleTable ["movem.l d0-d1,-(sp)"] 0 8 0 =
      .ok (["movem.l d0-d1,-(sp)\t;\t(8/8)\tmovem.l reglist,-(an)\t[0]"], 1, 8) ∧
    (8 : Nat) ≠ 8 + 8 * 2 := by
  decide

/-- C1 (amended): the register-count adjustment is applied in parse_template
only.  A costed template line contributes
components[0] + components[1] * register_count to its section when
register_count > 1 (components[0] otherwise), while the accumulate_chunk loop
always advances the cycle offset by components[0], even for an entry with at
least two components whose register count exceeds one. -/
theorem c1_regcount_cost_template_only
    (tbl : Table) (lineT : String) (secs : List TemplateSection)
    (code : List (String × Nat)) (label : String) (off : Nat) (ccT : CycleCount)
    (lines : List String) (target init i sum : Nat) (lineA : String) (ccA : CycleCount)
    (ht1 : (rustTrim lineT == "") = false)
    (ht2 : containsSub " set " (rustTrim lineT) = false)
    (ht3 : nopCapture (rustTrim lineT) = none)
    (ht4 : extract_cycle_count tbl (rustTrim lineT) templateSkip = .ok (some ccT))
    (ha1 : lines.getD i "" = lineA)
    (ha2 : i < lines.length)
    (ha3 : sum - init < target)
    (ha4 : (rustTrim lineA == "" || strStartsWith (rustTrim lineA) ";") = false)
    (ha5 : containsSub " set " lineA = false)
    (ha6 : extract_cycle_count tbl lineA accSkip = .ok (some ccA))
    (ha7 : ccA.cycles.length ≥ 2)
    (ha8 : ccA.reg_count > 1)
    (ha9 : sum - init + ccA.cycles.getD 0 0 ≤ target) :
    templateLoop tbl [lineT] secs code label off =
      .ok (secs,
        code ++ [(format_accumulated_instruction (rustTrim lineT) ccT.lookup ccT.cycles off,
          if ccT.reg_count > 1 then
            ccT.cycles.getD 0 0 + ccT.cycles.getD 1 0 * ccT.reg_count
          else ccT.cycles.getD 0 0)],
        (if label == "" then
            (commentCapture (rustTrim lineT)).getD ("Section " ++ Nat.repr (secs.length + 1))
          else label),
        off + (if ccT.reg_count > 1 then
            ccT.cycles.getD 0 0 + ccT.cycles.getD 1 0 * ccT.reg_count
          else ccT.cycles.getD 0 0)) ∧
    accLoop tbl lines target init i sum =
      (accLoop tbl lines target init (i + 1) (sum + ccA.cycles.getD 0 0)).map
        (fun r => (format_accumulated_instruction lineA ccA.lookup ccA.cycles sum :: r.1, r.2)) := by
  constructor
  · simp only [templateLoop, ht1, ht2, ht3, ht4, Bool.false_eq_true, if_false]
  · rw [accLoop_step]
    rw [if_pos ⟨ha2, ha3⟩]
    simp only [ha1, ha4, ha5, ha6, Bool.false_eq_true, if_false]
    rw [if_neg (by omega)]

/-! ## Claim C2 -/

/-- C2: when the next costed instruction would overflow the window, it is not
consumed: the residual target minus the cycles accumulated in this call is
emitted as residual / 4 filler nop lines of 4 cycles each (at the running
offsets), processing stops, and the returned index is that of the un-consumed
instruction; in particular for inline costs [2, 6] and target 6 only the
2-cost instruction is consumed, one filler closes the window to exactly 6,
and the next index is 1. -/
theorem c2_overflow_split (tbl : Table) (lines : List String)
    (target init i sum : Nat) (line : String) (cc : CycleCount)
    (hl : lines.getD i "" = line)
    (hi : i < lines.length)
    (hsum : sum - init < target)
    (hpass : (rustTrim line == "" || strStartsWith (rustTrim line) ";") = false)
    (hset : containsSub " set " line = false)
    (hcc : extract_cycle_count tbl line accSkip = .ok (some cc))
    (hover : sum - init + cc.cycles.getD 0 0 > target) :
    accLoop tbl lines target init i sum =
      .ok (nopLines sum ((target - (sum - init)) / 4), i,
        sum + 4 * ((target - (sum - init)) / 4)) ∧
    accumulate_chunk emptyTable ["a ; (2)", "b ; (6)"] 0 6 0 =
      .ok (["a ; (2)\t;\t(2)\tn/a\t[0]", "nop\t; 4 cycles\t[2]"], 1, 6) := by
  constructor
  · rw [accLoop_step]
    rw [if_pos ⟨hi, hsum⟩]
    simp only [hl, hpass, hset, hcc, Bool.false_eq_true, if_false]
    rw [if_pos hover, nopPad_eq]
  · decide

/-! ## Claim C3 -/

/-- C3 (counterexample): a repeat opener with count 2 whose body is never
closed has its body emitted twice, not once: process_block on
[rept 2, b] returns ([b, b], 2). -/
theorem c3_counterexample :
    process_block ["rept 2", "b"] 0 = (["b", "b"], 2) ∧
    (["b", "b"] : List String) ≠ ["b"] := by
  decide

/-- C3 (amended): a repeat opener with parseable count n whose body (free of
further repeat directives) is never closed before the input ends raises no
error; its body is emitted n times (the recursion returns at end of input and
the repetition loop still runs), and the returned index is the input length. -/
theorem c3_unclosed_rept_emits_count_times (line w cnt : String)
    (ws : List String) (n : Nat) (body : List String)
    (hopen : strStartsWith (lowerStr line) "rept" = true)
    (hsplit : splitWs (lowerStr line) = w :: cnt :: ws)
    (hparse : parseUsize cnt = some n)
    (hbody : ∀ l ∈ body, strStartsWith (lowerStr l) "rept" = false ∧
      strStartsWith (lowerStr l) "endr" = false) :
    process_block (line :: body) 0 = ((List.replicate n body).flatten, body.length + 1) := by
  unfold process_block
  simp only [List.drop_zero, List.length_cons, pbGo, hopen, hsplit, hparse]
  rw [pbGo_clean body hbody]
  simp [pbGo_nil, List.drop_length]
  omega

/-! ## Claim C4 -/

/-- C4: normalization is not total.  On the register list d3-d0 (a descending
range), count_registers subtracts the larger trailing digit from the smaller
in unsigned arithmetic; the subtraction overflows, which panics in a debug
build (and wraps to a nonsensical count in release), so normalize_line_ext
fails on the very input the claim names, movem.l d3-d0,-(sp). -/
theorem c4_descending_range_overflows :
    normalize_line_ext "movem.l d3-d0,-(sp)" =
      .error "attempt to subtract with overflow in count_registers" ∧
    count_registers "d3-d0" =
      .error "attempt to subtract with overflow in count_registers" := by
  decide

/-! ## Claim C5 -/

/-- C5 (counterexample): normalization is not idempotent on its own output.
The line bra.s lab normalizes to the canonical key bra.b xxx.l, but
normalizing that key yields bra.w xxx.l (the .b suffix produced for a
short-form branch does not match the .s test on renormalization). -/
theorem c5_counterexample :
    (normalize_line_ext "bra.s lab").map Prod.fst = .ok "bra.b xxx.l" ∧
    (normalize_line_ext "bra.b xxx.l").map Prod.fst = .ok "bra.w xxx.l" ∧
    ("bra.w xxx.l" : String) ≠ "bra.b xxx.l" := by
  decide

/-- C5 (amended): canonical keys built from the placeholders #xxx, dn, an,
d(an), xxx.w and xxx.l are fixed points of normalize_line_ext, but keys
carrying a .b branch suffix are not (see the counterexample) and neither are
keys containing the register-list placeholder, which renormalizes to the
absolute-address placeholder xxx.l. -/
theorem c5_placeholder_keys_fixed :
    normalize_line_ext "move.w #xxx,dn" = .ok ("move.w #xxx,dn", 0) ∧
    normalize_line_ext "moveq.l #xxx,dn" = .ok ("moveq.l #xxx,dn", 0) ∧
    normalize_line_ext "lea.l xxx.w,an" = .ok ("lea.l xxx.w,an", 0) ∧
    normalize_line_ext "move.l d(an),an" = .ok ("move.l d(an),an", 0) ∧
    normalize_line_ext "add.w xxx.l,dn" = .ok ("add.w xxx.l,dn", 0) ∧
    (normalize_line_ext "movem.l reglist,-(an)").map Prod.fst =
      .ok "movem.l xxx.l,-(an)" := by
  decide

/-! ## Claim C6 -/

/-- C6: when the loop exhausts the input with accumulated cycles below the
target (and the shortfall is a multiple of 4), the shortfall is padded with
4-cycle filler lines so that the returned offset delta equals the target
exactly, and no diagnostic fires; concretely a single 2-cost instruction with
target 10 yields two fillers and a delta of exactly 10.  When the equality
cannot be restored (target 5 leaves a shortfall of 3, truncated to zero
fillers) the diagnostic fires and the produced chunk is still returned. -/
theorem c6_exhaust_padding (tbl : Table) (lines : List String)
    (start target init : Nat) (chunk : List String) (i sum : Nat)
    (hloop : accLoop tbl lines target init start init = .ok (chunk, i, sum))
    (hexh : i = lines.length)
    (hge : init ≤ sum)
    (hlow : sum - init < target)
    (hdvd : 4 ∣ (target - (sum - init))) :
    accumulate_chunk tbl lines start target init =
      .ok (chunk ++ nopLines sum ((target - (sum - init)) / 4), i, init + target) ∧
    accumulate_warns tbl lines start target init = false ∧
    accumulate_chunk emptyTable ["m ; (2)"] 0 10 0 =
      .ok (["m ; (2)\t;\t(2)\tn/a\t[0]", "nop\t; 4 cycles\t[2]", "nop\t; 4 cycles\t[6]"],
        1, 10) ∧
    accumulate_chunk emptyTable ["q ; (2)"] 0 5 0 =
      .ok (["q ; (2)\t;\t(2)\tn/a\t[0]"], 1, 2) ∧
    accumulate_warns emptyTable ["q ; (2)"] 0 5 0 = true := by
  have hsum2 : sum + 4 * ((target - (sum - init)) / 4) = init + target := by
    have h4 : 4 * ((target - (sum - init)) / 4) = target - (sum - init) :=
      Nat.mul_div_cancel' hdvd
    omega
  have hmain : accumulate_chunk tbl lines start target init =
      .ok (chunk ++ nopLines sum ((target - (sum - init)) / 4), i, init + target) := by
    unfold accumulate_chunk
    rw [hloop]
    simp only [Except.map, if_pos hlow, nopPad_eq, hsum2]
  refine ⟨hmain, ?_, by decide, by decide, by decide⟩
  unfold accumulate_warns
  rw [hmain]
  simp

/-! ## Claim C7 -/

/-- C7 (counterexample): in a template section whose first costed line has no
inline comment, a later line of the same section does carry the inline
comment hello, yet the section's label is the default Section 1 rather than
that first comment encountered in the section. -/
theorem c7_counterexample :
    (parse_template emptyTable
        "move.w #1,d0\nmove.w #2,d1 ; hello\ndcb.w 1,$4e71").map
      (fun secs => secs.map (fun s => s.label)) = .ok ["Section 1"] ∧
    commentCapture "move.w #2,d1 ; hello" = some "hello" ∧
    ("Section 1" : String) ≠ "hello" := by
  decide

/-- C7 (amended): a section's label is fixed by its first seeding line alone.
When the first line of a section (built from an empty pending section) is a
costed line without an inline comment, the label is set at that moment to the
default Section ordinal and comments on later lines never change it: the
first section flushed afterwards carries the default label, and if none is
flushed the pending label is still the default. -/
theorem c7_label_fixed_at_seed (tbl : Table) (line : String)
    (rest : List String) (secs : List TemplateSection) (off : Nat) (cc : CycleCount)
    (secs2 : List TemplateSection) (code2 : List (String × Nat)) (label2 : String)
    (off2 : Nat)
    (h1 : (rustTrim line == "") = false)
    (h2 : containsSub " set " (rustTrim line) = false)
    (h3 : nopCapture (rustTrim line) = none)
    (h4 : extract_cycle_count tbl (rustTrim line) templateSkip = .ok (some cc))
    (h5 : commentCapture (rustTrim line) = none)
    (h : templateLoop tbl (line :: rest) secs [] "" off = .ok (secs2, code2, label2, off2)) :
    (∀ s, (secs2.drop secs.length).head? = some s →
      s.label = "Section " ++ Nat.repr (secs.length + 1)) ∧
    (secs2.drop secs.length = [] → label2 = "Section " ++ Nat.repr (secs.length + 1)) := by
  simp only [templateLoop, h1, h2, h3, h4, h5, Bool.false_eq_true, if_false,
    Option.getD_none, beq_self_eq_true, if_true] at h
  exact templateLoop_label_persist tbl rest secs _ _ _ _ _ _ _
    (section_label_ne_empty _) h

/-! ## Claim C8 -/

/-- C8: a repeat opener whose count token x does not parse is emitted
verbatim, the body is emitted once without duplication, and the close line is
consumed: process_block on [a, rept x, b, endr] returns exactly
[a, rept x, b] with the stop index just past the close line. -/
theorem c8_malformed_count_fallback :
    process_block ["a", "rept x", "b", "endr"] 0 = (["a", "rept x", "b"], 4) ∧
    parseUsize "x" = none := by
  decide

/-! ## Claim C9 -/

/-- C9: extract_cycle_count tests the inline-override pattern before the skip
predicate, so a line with a parenthesised integer (preceded by start of line
or whitespace) yields that cost under the key n/a even when should_skip holds
for the line; consequently parse_template turns the full-line comment
; delay (12) into an injection-code entry of cost 12, although comment lines
are in its skip predicate. -/
theorem c9_override_precedes_skip (tbl : Table) (line : String)
    (pred : String → Bool) (n : Nat)
    (hnum : regNumberCapture line = some n)
    (hskip : pred line = true) :
    extract_cycle_count tbl line pred = .ok (some ⟨[n], "n/a", 0⟩) ∧
    templateSkip "; delay (12)" = true ∧
    parse_template emptyTable "; delay (12)" =
      .ok [⟨[("; delay (12)\t;\t(12)\tn/a\t[0]", 12)], 0, "delay (12)"⟩] := by
  refine ⟨?_, by decide, by decide⟩
  unfold extract_cycle_count
  rw [hnum]

/-! ## Claim C10 -/

/-- C10: every section returned by parse_template has non-empty injection
code: a filler directive seen while the pending injection list is empty
creates no section and discards its budget, and the trailing flush fires only
when injection code is pending; of two consecutive filler directives only the
first produces a section (the second's budget of 12 cycles is dropped). -/
theorem c10_sections_have_code (tbl : Table) (content : String)
    (secs : List TemplateSection)
    (h : parse_template tbl content = .ok secs) :
    (∀ s ∈ secs, s.injection_code ≠ []) ∧
    parse_template emptyTable "x\ndcb.w 2,$4e71\ndcb.w 3,$4e71" =
      .ok [⟨[("x\t;\t(0)\tx.w\t[0]", 0)], 8, "Section 1"⟩] := by
  refine ⟨?_, by decide⟩
  intro s hs
  unfold parse_template at h
  cases hT : templateLoop tbl (rustLines content) [] [] "" 0 with
  | error e =>
    rw [hT] at h
    simp [Except.map] at h
  | ok st =>
    obtain ⟨secs', code', label', off'⟩ := st
    rw [hT] at h
    simp only [Except.map, Except.ok.injEq] at h
    have base : ∀ s ∈ secs', s.injection_code ≠ [] :=
      templateLoop_nonempty tbl (rustLines content) [] [] "" 0 secs' code' label' off'
        (by simp) hT
    by_cases hc : code'.isEmpty = true
    · rw [hc] at h
      simp only [Bool.not_true, Bool.false_eq_true, if_false] at h
      subst h
      exact base s hs
    · have hc2 : (!code'.isEmpty) = true := by
        simp [Bool.eq_false_iff.mpr hc]
      rw [hc2] at h
      simp only [if_true] at h
      subst h
      rcases List.mem_append.mp hs with hs2 | hs2
      · exact base s hs2
      · rw [List.mem_singleton] at hs2
        subst hs2
        simp only [ne_eq]
        intro he
        rw [he] at hc
        simp at hc

/-! ## Witnesses -/

/-- Witness for C1 (amended), instantiated with the movem register-list entry
of the sample table on both the template and the accumulator side. -/
theorem c1_witness :
    templateLoop sampleTable ["movem.l d0-d1,-(sp)"] [] [] "" 0 =
      .ok ([], [("movem.l d0-d1,-(sp)\t;\t(8/8)\tmovem.l reglist,-(an)\t[0]", 24)],
        "Section 1", 24) ∧
    accLoop sampleTable ["movem.l d0-d1,-(sp)"] 12 0 0 0 =
      (accLoop sampleTable ["movem.l d0-d1,-(sp)"] 12 0 1 8).map
        (fun r =>
          ("movem.l d0-d1,-(sp)\t;\t(8/8)\tmovem.l reglist,-(an)\t[0]" :: r.1, r.2)) := by
  have h := c1_regcount_cost_template_only sampleTable "movem.l d0-d1,-(sp)" [] [] "" 0
    ⟨[8, 8], "movem.l reglist,-(an)", 2⟩ ["movem.l d0-d1,-(sp)"] 12 0 0 0
    "movem.l d0-d1,-(sp)" ⟨[8, 8], "movem.l reglist,-(an)", 2⟩
    (by decide) (by decide) (by decide) (by decide) (by decide) (by decide) (by decide)
    (by decide) (by decide) (by decide) (by decide) (by decide) (by decide)
  exact ⟨h.1.trans (by decide), h.2.trans (by decide)⟩

/-- Witness for C2, at the state just after consuming the 2-cost instruction
of the [2, 6] example. -/
theorem c2_witness :
    accLoop emptyTable ["a ; (2)", "b ; (6)"] 6 0 1 2 =
      .ok (["nop\t; 4 cycles\t[2]"], 1, 6) := by
  have h := c2_overflow_split emptyTable ["a ; (2)", "b ; (6)"] 6 0 1 2 "b ; (6)"
    ⟨[6], "n/a", 0⟩ (by decide) (by decide) (by decide) (by decide) (by decide)
    (by decide) (by decide)
  exact h.1.trans (by decide)

/-- Witness for C3 (amended): the unclosed opener rept 2 over the body [b]. -/
theorem c3_witness : process_block ["rept 2", "b"] 0 = (["b", "b"], 2) ∧
    parseUsize "2" = some 2 := by
  have h := c3_unclosed_rept_emits_count_times "rept 2" "rept" "2" [] 2 ["b"]
    (by decide) (by decide) (by decide) (by decide)
  exact ⟨h.trans (by decide), by decide⟩

/-- Witness for C6: a single 2-cost instruction against target 10. -/
theorem c6_witness :
    accumulate_chunk emptyTable ["m ; (2)"] 0 10 0 =
      .ok (["m ; (2)\t;\t(2)\tn/a\t[0]", "nop\t; 4 cycles\t[2]", "nop\t; 4 cycles\t[6]"],
        1, 10) ∧
    accumulate_warns emptyTable ["m ; (2)"] 0 10 0 = false := by
  have h := c6_exhaust_padding emptyTable ["m ; (2)"] 0 10 0
    ["m ; (2)\t;\t(2)\tn/a\t[0]"] 1 2 (by decide) (by decide) (by decide) (by decide)
    (by decide)
  exact ⟨h.1.trans (by decide), h.2.1⟩

/-- Witness for C7 (amended): a first costed line without comment fixes the
default label even though a later line of the section has a comment. -/
theorem c7_witness :
    (⟨[("x\t;\t(0)\tx.w\t[0]", 0), ("y ; later\t;\t(0)\ty.w\t[0]", 0)], 4,
      "Section 1"⟩ : TemplateSection).label = "Section " ++ Nat.repr (0 + 1) := by
  have h := c7_label_fixed_at_seed emptyTable "x" ["y ; later", "dcb.w 1,$4e71"] [] 0
    ⟨[0], "x.w", 0⟩
    [⟨[("x\t;\t(0)\tx.w\t[0]", 0), ("y ; later\t;\t(0)\ty.w\t[0]", 0)], 4, "Section 1"⟩]
    [] "" 0 (by decide) (by decide) (by decide) (by decide) (by decide) (by decide)
  exact h.1 _ (by decide)

/-- Witness for C9: the full-line comment ; delay (12), which the template
skip predicate flags, still resolves to the inline override cost 12. -/
theorem c9_witness :
    extract_cycle_count emptyTable "; delay (12)" templateSkip =
      .ok (some ⟨[12], "n/a", 0⟩) ∧
    regNumberCapture "; delay (12)" = some 12 ∧
    templateSkip "; delay (12)" = true := by
  have h := c9_override_precedes_skip emptyTable "; delay (12)" templateSkip 12
    (by decide) (by decide)
  exact ⟨h.1, by decide, by decide⟩

/-- Witness for C10: the single section of the consecutive-filler template
has non-empty injection code. -/
theorem c10_witness :
    (⟨[("x\t;\t(0)\tx.w\t[0]", 0)], 8, "Section 1"⟩ :
      TemplateSection).injection_code ≠ [] := by
  have h := c10_sections_have_code emptyTable "x\ndcb.w 2,$4e71\ndcb.w 3,$4e71"
    [⟨[("x\t;\t(0)\tx.w\t[0]", 0)], 8, "Section 1"⟩] (by decide)
  exact h.1 _ (by decide)
